import Mathlib

/-!
# Verification of the Kramers-Kronig validation engine

Shallow embedding of `library/algorithms/kramers_kronig.py` over exact
rationals.  Numeric literals of the source (e.g. `np.pi`, `1e-12`) are
embedded as the exact rational values used in the statements; arrays are
`List ℚ`; the optional SciPy collaborators (analytic-signal transform,
cubic interpolation, window generation, peak finding) are parameters of
the embedding, bundled in the `Ext` structure, constrained only by their
documented length contracts.
-/

set_option maxRecDepth 4000

namespace KK

/-- The exact rational value of the IEEE-754 binary64 constant `np.pi`
(`884279719003555 * 2 ^ (-48)`). -/
def npPi : ℚ := 884279719003555 / 281474976710656

/-- `np.diff`: consecutive differences, `diff[i] = l[i+1] - l[i]`. -/
def npDiff (l : List ℚ) : List ℚ :=
  List.zipWith (fun a b => b - a) l l.tail

/-- `np.allclose(a, b)` with a scalar second argument:
every element satisfies `|x - b| ≤ atol + rtol * |b|`. -/
def npAllclose (a : List ℚ) (b rtol atol : ℚ) : Bool :=
  a.all (fun x => decide (|x - b| ≤ atol + rtol * |b|))

/-- Arithmetic mean of a list (`np.mean`); `0` on the empty list. -/
def listMean (l : List ℚ) : ℚ := l.sum / l.length

/-- `np.max` over a nonempty list (head-seeded fold). -/
def listMax (l : List ℚ) : ℚ := l.foldl max (l.headD 0)

/-- `np.min` over a nonempty list (head-seeded fold). -/
def listMin (l : List ℚ) : ℚ := l.foldl min (l.headD 0)

/-- Insert into a sorted list (ascending). -/
def insertSorted (x : ℚ) : List ℚ → List ℚ
  | [] => [x]
  | y :: ys => if x ≤ y then x :: y :: ys else y :: insertSorted x ys

/-- Insertion sort, ascending (the order `np.sort` produces). -/
def sortQ (l : List ℚ) : List ℚ := l.foldr insertSorted []

/-- `np.median`: middle element of the sorted list, or the average of the
two middle elements for even length. -/
def npMedian (l : List ℚ) : ℚ :=
  let s := sortQ l
  let n := s.length
  if n = 0 then 0
  else if n % 2 = 1 then s.getD (n / 2) 0
  else (s.getD (n / 2 - 1) 0 + s.getD (n / 2) 0) / 2

/-- `np.quantile` with the default linear interpolation method. -/
def npQuantile (l : List ℚ) (q : ℚ) : ℚ :=
  let s := sortQ l
  let n := s.length
  if n = 0 then 0
  else
    let h : ℚ := q * ((n : ℚ) - 1)
    let lo : ℕ := (⌊h⌋).toNat
    let g : ℚ := h - (lo : ℚ)
    s.getD lo 0 + g * (s.getD (min (lo + 1) (n - 1)) 0 - s.getD lo 0)

/-- `np.linspace a b num`: `num` evenly spaced samples from `a` to `b`
inclusive (a single sample is `a`; zero samples is the empty list). -/
def linspace (a b : ℚ) (num : ℕ) : List ℚ :=
  (List.range num).map (fun k : ℕ => a + (b - a) * (k : ℚ) / ((num : ℚ) - 1))

/-- Python `int(...)` on a rational: truncation toward zero. -/
def truncQ (q : ℚ) : ℤ := if 0 ≤ q then ⌊q⌋ else -⌊-q⌋

/-- The numpy tail slice `l[-k:]`; for `k = 0` the slice `l[-0:]` is the
whole array. -/
def lastN (l : List ℚ) (k : ℕ) : List ℚ :=
  if k = 0 then l else l.drop (l.length - k)

-- --------------------
-- Core KK primitives (`_kk_trapz_numba`, `_kk_trapz_sskk`)
-- --------------------

/-- Value of target sample `i` in the pure-Python trapezoidal KK
(principal value) with per-endpoint guards: the body of the fallback
(non-numba) branch of `_kk_trapz_numba`. -/
def kkTrapzPoint (omega epsImag : List ℚ) (eps_inf : ℚ) (i : ℕ) : ℚ :=
  let n := omega.length
  let wi := omega.getD i 0
  let integral := ((List.range (n - 1)).map (fun j =>
    let wj := omega.getD j 0
    let wj1 := omega.getD (j + 1) 0
    let denom_j := wj * wj - wi * wi
    let denom_j1 := wj1 * wj1 - wi * wi
    let fj := if denom_j = 0 then 0 else wj * epsImag.getD j 0 / denom_j
    let fj1 := if denom_j1 = 0 then 0 else wj1 * epsImag.getD (j + 1) 0 / denom_j1
    (1 / 2) * (fj + fj1) * (wj1 - wj))).sum
  eps_inf + (2 / npPi) * integral

/-- `_kk_trapz_numba`, fallback (pure-Python) branch: reconstruct ε′ at
every sample of the grid. -/
def kkTrapz (omega epsImag : List ℚ) (eps_inf : ℚ) : List ℚ :=
  (List.range omega.length).map (kkTrapzPoint omega epsImag eps_inf)

/-- Value of target sample `i` in the numba-accelerated branch of
`_kk_trapz_numba`; the loop body is that of the fallback branch (the
`prange` parallelization distributes the same per-`i` computation). -/
def kkTrapzParallelPoint (omega epsImag : List ℚ) (eps_inf : ℚ) (i : ℕ) : ℚ :=
  let n := omega.length
  let wi := omega.getD i 0
  let integral := ((List.range (n - 1)).map (fun j =>
    let wj := omega.getD j 0
    let wj1 := omega.getD (j + 1) 0
    let denom_j := wj * wj - wi * wi
    let denom_j1 := wj1 * wj1 - wi * wi
    let fj := if denom_j = 0 then 0 else wj * epsImag.getD j 0 / denom_j
    let fj1 := if denom_j1 = 0 then 0 else wj1 * epsImag.getD (j + 1) 0 / denom_j1
    (1 / 2) * (fj + fj1) * (wj1 - wj))).sum
  eps_inf + (2 / npPi) * integral

/-- `_kk_trapz_numba`, numba branch: reconstruct ε′ at every sample. -/
def kkTrapzParallel (omega epsImag : List ℚ) (eps_inf : ℚ) : List ℚ :=
  (List.range omega.length).map (kkTrapzParallelPoint omega epsImag eps_inf)

/-- Value of target sample `i` in `_kk_trapz_sskk` (singly subtractive KK,
trapezoidal, per-endpoint guards on the doubly-singular denominator).
The `eps_inf` argument is accepted but unused, exactly as in the source. -/
def kkTrapzSskkPoint (omega epsImag : List ℚ) (eps_inf dk_anchor omega_anchor : ℚ)
    (i : ℕ) : ℚ :=
  let n := omega.length
  let wi2 := omega.getD i 0 * omega.getD i 0
  let w02 := omega_anchor * omega_anchor
  let num_factor := 2 * (wi2 - w02) / npPi
  let integral := ((List.range (n - 1)).map (fun j =>
    let wj := omega.getD j 0
    let wj1 := omega.getD (j + 1) 0
    let denom_j := (wj * wj - wi2) * (wj * wj - w02)
    let denom_j1 := (wj1 * wj1 - wi2) * (wj1 * wj1 - w02)
    let fj := if denom_j = 0 then 0 else wj * epsImag.getD j 0 / denom_j
    let fj1 := if denom_j1 = 0 then 0 else wj1 * epsImag.getD (j + 1) 0 / denom_j1
    (1 / 2) * (fj + fj1) * (wj1 - wj))).sum
  dk_anchor + num_factor * integral

/-- `_kk_trapz_sskk`: SSKK reconstruction at every sample. -/
def kkTrapzSskk (omega epsImag : List ℚ) (eps_inf dk_anchor omega_anchor : ℚ) :
    List ℚ :=
  (List.range omega.length).map
    (kkTrapzSskkPoint omega epsImag eps_inf dk_anchor omega_anchor)

-- --------------------
-- Utility helpers (`_is_grid_uniform`, `_detect_peaks`)
-- --------------------

/-- `_is_grid_uniform` as it actually executes: `diffs = np.diff(f)` then
`np.allclose(diffs, diffs[0], rtol, atol)`.  The indexing `diffs[0]`
raises `IndexError` when `diffs` is empty (fewer than 2 samples), which
we model as `none`. -/
def isGridUniformRun (l : List ℚ) (rtol atol : ℚ) : Option Bool :=
  match npDiff l with
  | [] => none
  | d :: ds => some (npAllclose (d :: ds) d rtol atol)

/-- The value `_is_grid_uniform` computes on grids of length ≥ 2
(the only inputs it receives from `validate_kramers_kronig`). -/
def isGridUniform (l : List ℚ) (rtol atol : ℚ) : Bool :=
  npAllclose (npDiff l) ((npDiff l).headD 0) rtol atol

-- --------------------
-- External collaborators (SciPy)
-- --------------------

/-- The SciPy collaborators consumed by the engine, abstracted by their
contracts: `hilbertImag l` is `np.imag(scipy.signal.hilbert(l))`
(length-preserving); `getWindow n` is `scipy.signal.get_window(spec, n)`
for a fixed valid window spec (length `n`); `interp xs ys` is the cubic
`interp1d` with boundary extrapolation; `countPeaks l thr` is the number
of `scipy.signal.find_peaks(l, height=thr)` peaks.  `numba` records
whether the accelerated kernel was importable at startup. -/
structure Ext where
  hilbertImag : List ℚ → List ℚ
  hilbert_length : ∀ l, (hilbertImag l).length = l.length
  getWindow : ℕ → List ℚ
  window_length : ∀ n, (getWindow n).length = n
  interp : List ℚ → List ℚ → ℚ → ℚ
  countPeaks : List ℚ → ℚ → ℕ
  numba : Bool

/-- `_detect_peaks`: threshold `max(0, 0.1 * max(df))`, then the external
peak finder. -/
def detectPeaks (ext : Ext) (df_values : List ℚ) : ℕ :=
  ext.countPeaks df_values (max 0 ((1 / 10) * listMax df_values))

-- --------------------
-- Hilbert-based KK (`_kk_hilbert`, `_kk_resample_hilbert`)
-- --------------------

/-- `_kk_hilbert`: odd extension of ε″, optional taper, zero-padding,
analytic-signal transform, extraction of the positive-ω half, plus ε∞.
Raises (models `ValueError`) below 4 samples. -/
def kkHilbert (ext : Ext) (omega epsImag : List ℚ) (eps_inf : ℚ)
    (useWindow : Bool) (pad_factor : ℕ) : Except String (List ℚ) :=
  let n := omega.length
  if n < 4 then .error "Need at least 4 points for Hilbert-based KK"
  else
    let x := if useWindow then List.zipWith (· * ·) epsImag (ext.getWindow n)
             else epsImag
    let x_neg := x.reverse.map (fun v => -v)
    let x_ext := x_neg ++ [0] ++ x
    let x_ext := if 1 < pad_factor then
        x_ext ++ List.replicate ((pad_factor - 1) * x_ext.length) 0
      else x_ext
    let h_ext := ext.hilbertImag x_ext
    let h_pos := (h_ext.take (2 * n + 1)).drop (n + 1)
    .ok (h_pos.map (fun v => eps_inf + v))

/-- Resolution of the resample count: `int(resample_points or
min(8192, 4 * len(frequency)))` — Python `or` treats `0` as absent. -/
def resampleNum (resample_points : Option ℕ) (nfreq : ℕ) : ℕ :=
  match resample_points with
  | none => min 8192 (4 * nfreq)
  | some k => if k = 0 then min 8192 (4 * nfreq) else k

/-- `_kk_resample_hilbert`: interpolate ε″ onto a uniform ω grid, run the
Hilbert KK there, and interpolate the result back onto the original ω
samples. -/
def kkResampleHilbert (ext : Ext) (frequency epsImag : List ℚ) (eps_inf : ℚ)
    (useWindow : Bool) (resample_points : Option ℕ) : Except String (List ℚ) :=
  let omega := frequency.map (fun f => 2 * npPi * f)
  let num := resampleNum resample_points frequency.length
  let omu := linspace (listMin omega) (listMax omega) num
  let epsImagU := omu.map (ext.interp omega epsImag)
  (kkHilbert ext omu epsImagU eps_inf useWindow 2).map (fun dk_u =>
    omega.map (ext.interp omu dk_u))

-- --------------------
-- ε∞ estimation (`_estimate_eps_inf`)
-- --------------------

inductive EpsInfMethod where
  | mean : EpsInfMethod
  | fit : EpsInfMethod
deriving DecidableEq

/-- Tail size `min(max(min_tail_points, int(tail_fraction * N)), N)`;
Python `int(...)` truncates toward zero. -/
def tailSize (N : ℕ) (tail_fraction : ℚ) (min_tail_points : ℕ) : ℕ :=
  (min (max (min_tail_points : ℤ) (truncQ (tail_fraction * N))) (N : ℤ)).toNat

/-- Slope of `scipy.stats.linregress` (ordinary least squares). -/
def olsSlope (x y : List ℚ) : ℚ :=
  let xm := listMean x
  let ym := listMean y
  (List.zipWith (fun a b => (a - xm) * (b - ym)) x y).sum /
    ((x.map (fun a => (a - xm) ^ 2)).sum)

/-- Intercept of `scipy.stats.linregress` (ordinary least squares). -/
def olsIntercept (x y : List ℚ) : ℚ :=
  listMean y - olsSlope x y * listMean x

/-- `_estimate_eps_inf`: mean (or 1/f² least-squares intercept) of the
high-frequency tail of ε′; `fit` silently degrades to the tail mean
below 3 tail points. -/
def estimateEpsInf (frequency dk : List ℚ) (method : EpsInfMethod)
    (tail_fraction : ℚ) (min_tail_points : ℕ) : ℚ :=
  let N := frequency.length
  let n_tail := tailSize N tail_fraction min_tail_points
  let tail_freq := lastN frequency n_tail
  let tail_dk := lastN dk n_tail
  match method with
  | .fit =>
    if tail_dk.length < 3 then listMean tail_dk
    else olsIntercept (tail_freq.map (fun f => 1 / (f * f))) tail_dk
  | .mean => listMean tail_dk

-- --------------------
-- Public API (`validate_kramers_kronig`)
-- --------------------

inductive Method where
  | auto : Method
  | hilbert : Method
  | trapz : Method
deriving DecidableEq

/-- The keyword arguments of `validate_kramers_kronig` (the `window`
argument is reduced to whether a window is supplied; the weights come
from `Ext.getWindow`). -/
structure Params where
  method : Method := .auto
  eps_inf_method : EpsInfMethod := .fit
  eps_inf : Option ℚ := none
  tail_fraction : ℚ := 1 / 10
  min_tail_points : ℕ := 3
  useWindow : Bool := false
  resample_points : Option ℕ := none
  causality_threshold : ℚ := 1 / 20
  use_sskk : Bool := true
  anchor_index : Option ℤ := none

/-- The result dict of `validate_kramers_kronig`.  The reported `rmse`
is the square root of the `mse` field (the mean of squared residuals,
which is exact over ℚ; its square root generally is not). -/
structure KKResult where
  dk_kk : List ℚ
  mean_relative_error : ℚ
  median_relative_error : ℚ
  q90_relative_error : ℚ
  mse : ℚ
  causality_status : String
  eps_inf_estimated : ℚ
  method_used : String
  method_detail : String
  num_peaks : ℕ
  is_uniform_grid : Bool
  anchor_index : Option ℤ
deriving DecidableEq

/-- Method selection (source lines 324-329): `auto` resolves by grid
uniformity, explicit methods pass through. -/
def actualMethodStr (m : Method) (is_uniform : Bool) : String :=
  match m with
  | .auto => if is_uniform then "hilbert" else "trapz"
  | .hilbert => "hilbert"
  | .trapz => "trapz"

/-- Resolution of the SSKK anchor index: the median index when absent,
otherwise numpy integer indexing (negative wraps once; anything outside
`[-n, n)` raises `IndexError`). -/
def resolveAnchor (anchor : Option ℤ) (n : ℕ) : Except String ℕ :=
  match anchor with
  | none => .ok (n / 2)
  | some i =>
    if 0 ≤ i ∧ i < (n : ℤ) then .ok i.toNat
    else if -(n : ℤ) ≤ i ∧ i < 0 then .ok (i + n).toNat
    else .error "index out of bounds"

/-- The first input-validation error of `validate_kramers_kronig`
(source lines 301-310), or `none` if all checks pass.  The non-finite
check has no counterpart over ℚ, where every value is finite. -/
def inputError (frequency dk df : List ℚ) : Option String :=
  if frequency.length ≠ dk.length ∨ frequency.length ≠ df.length then
    some "Input arrays must have the same length"
  else if frequency.length < 2 then
    some "At least 2 data points are required"
  else if ¬ (npDiff frequency).all (fun d => decide (0 < d)) then
    some "Frequencies must be strictly increasing"
  else if frequency.any (fun f => decide (f ≤ 0)) then
    some "Frequencies must be positive"
  else none

/-- The transform dispatch (source lines 331-349): returns the
reconstructed `dk_kk` together with the method-detail tag. -/
def transformStep (ext : Ext) (p : Params) (frequency omega epsImag dk : List ℚ)
    (epsInf : ℚ) (is_uniform : Bool) : Except String (List ℚ × String) :=
  if actualMethodStr p.method is_uniform = "hilbert" then
    if ¬ is_uniform then
      (kkResampleHilbert ext frequency epsImag epsInf p.useWindow
        p.resample_points).map (fun v => (v, "hilbert-resample"))
    else
      (kkHilbert ext omega epsImag epsInf p.useWindow 2).map
        (fun v => (v, "hilbert-uniform"))
  else
    if p.use_sskk then
      (resolveAnchor p.anchor_index frequency.length).map (fun idx0 =>
        (kkTrapzSskk omega epsImag epsInf (dk.getD idx0 0) (omega.getD idx0 0),
          "trapz-sskk"))
    else
      .ok ((if ext.numba then kkTrapzParallel omega epsImag epsInf
            else kkTrapz omega epsImag epsInf), "trapz-pv")

/-- Metric computation and result assembly (source lines 351-376). -/
def buildResult (p : Params) (dk : List ℚ) (epsInf : ℚ) (num_peaks : ℕ)
    (is_uniform : Bool) (vd : List ℚ × String) : KKResult :=
  let dk_kk := vd.1
  let scale := npMedian (dk.map (fun v => |v|))
  let eps_scale := max (1 / 10 ^ 12) ((1 / 10 ^ 6) * scale)
  let rel_err := List.zipWith (fun a b => |a - b| / (|b| + eps_scale)) dk_kk dk
  let mean_rel := listMean rel_err
  { dk_kk := dk_kk
    mean_relative_error := mean_rel
    median_relative_error := npMedian rel_err
    q90_relative_error := npQuantile rel_err (9 / 10)
    mse := listMean (List.zipWith (fun a b => (a - b) ^ 2) dk_kk dk)
    causality_status := if mean_rel ≤ p.causality_threshold then "PASS" else "FAIL"
    eps_inf_estimated := epsInf
    method_used := actualMethodStr p.method is_uniform
    method_detail := vd.2
    num_peaks := num_peaks
    is_uniform_grid := is_uniform
    anchor_index := p.anchor_index }

/-- `omega = 2.0 * np.pi * frequency`. -/
def omegaOf (frequency : List ℚ) : List ℚ :=
  frequency.map (fun f => 2 * npPi * f)

/-- `eps_imag = dk * df` (ε″ = ε′ · tanδ). -/
def epsImagOf (dk df : List ℚ) : List ℚ :=
  List.zipWith (· * ·) dk df

/-- The resolved ε∞: the explicit argument if given, else the estimate. -/
def epsInfOf (p : Params) (frequency dk : List ℚ) : ℚ :=
  p.eps_inf.getD
    (estimateEpsInf frequency dk p.eps_inf_method p.tail_fraction p.min_tail_points)

/-- The grid-uniformity flag as computed by `validate_kramers_kronig`
(default tolerances of `_is_grid_uniform`). -/
def uniformOf (frequency : List ℚ) : Bool :=
  isGridUniform frequency (1 / 100000) (1 / 100000000)

/-- The body of `validate_kramers_kronig` after the input checks. -/
def computeKK (ext : Ext) (p : Params) (frequency dk df : List ℚ) :
    Except String KKResult :=
  (transformStep ext p frequency (omegaOf frequency) (epsImagOf dk df) dk
    (epsInfOf p frequency dk) (uniformOf frequency)).map
    (buildResult p dk (epsInfOf p frequency dk) (detectPeaks ext df)
      (uniformOf frequency))

/-- `validate_kramers_kronig`: input checks, then the KK computation;
`.error` models a raised exception (nothing else is returned). -/
def validateKK (ext : Ext) (p : Params) (frequency dk df : List ℚ) :
    Except String KKResult :=
  match inputError frequency dk df with
  | some e => .error e
  | none => computeKK ext p frequency dk df

/-- An inert result used only to project fields out of a successful
`validateKK` run. -/
def emptyResult : KKResult :=
  { dk_kk := [], mean_relative_error := 0, median_relative_error := 0
    q90_relative_error := 0, mse := 0, causality_status := ""
    eps_inf_estimated := 0, method_used := "", method_detail := ""
    num_peaks := 0, is_uniform_grid := false, anchor_index := none }

/-- The result of a successful `validateKK` run (`emptyResult` when the
run raised). -/
def runKK (ext : Ext) (p : Params) (frequency dk df : List ℚ) : KKResult :=
  (validateKK ext p frequency dk df).toOption.getD emptyResult

/-- Concrete instantiation of the external collaborators, for evaluating
the engine on concrete inputs (the claims proved below hold for every
instantiation satisfying the length contracts). -/
def extId : Ext where
  hilbertImag := fun l => l
  hilbert_length := fun _ => rfl
  getWindow := fun n => List.replicate n 1
  window_length := fun n => List.length_replicate n 1
  interp := fun _ _ _ => 0
  countPeaks := fun _ _ => 0
  numba := false

-- --------------------
-- Claim-side (spec-modelled) definitions used for refinement comparisons
-- --------------------

/-- The claimed PV endpoint term `f_k = ω_k·ε″[k]/(ω_k² − ωᵢ²)`, replaced
by exactly `0` when its own denominator is exactly zero. -/
def pvEndpointTerm (omega epsImag : List ℚ) (i k : ℕ) : ℚ :=
  if (omega.getD k 0) * (omega.getD k 0) - (omega.getD i 0) * (omega.getD i 0) = 0
  then 0
  else (omega.getD k 0) * epsImag.getD k 0 /
    ((omega.getD k 0) * (omega.getD k 0) - (omega.getD i 0) * (omega.getD i 0))

/-- The value the claim states for the basic PV trapezoid transform at
target index `i`: `eps_inf + (2/π)·Σ_{j=0}^{n−2} ½·(f_j + f_{j+1})·(ω_{j+1} − ω_j)`. -/
def kkTrapzClaimPoint (omega epsImag : List ℚ) (eps_inf : ℚ) (i : ℕ) : ℚ :=
  eps_inf + (2 / npPi) * ((List.range (omega.length - 1)).map (fun j =>
    (1 / 2) * (pvEndpointTerm omega epsImag i j + pvEndpointTerm omega epsImag i (j + 1)) *
      (omega.getD (j + 1) 0 - omega.getD j 0))).sum

/-- Standard rounding to the nearest integer (ties never occur where this
is used below). -/
def roundQ (q : ℚ) : ℤ := ⌊q + 1 / 2⌋

/-- The tail size the claim states for the ε∞ estimator:
`clamp(max(min_tail_points, round(tail_fraction·N)), upper bound N)`. -/
def tailSizeClaim (N : ℕ) (tail_fraction : ℚ) (min_tail_points : ℕ) : ℕ :=
  (min (max (min_tail_points : ℤ) (roundQ (tail_fraction * N))) (N : ℤ)).toNat

/-- The ε∞ estimator as the claim describes it: identical to
`estimateEpsInf` except that the tail size rounds `tail_fraction·N`
to the nearest integer instead of truncating it. -/
def estimateEpsInfClaim (frequency dk : List ℚ) (method : EpsInfMethod)
    (tail_fraction : ℚ) (min_tail_points : ℕ) : ℚ :=
  let N := frequency.length
  let n_tail := tailSizeClaim N tail_fraction min_tail_points
  let tail_freq := lastN frequency n_tail
  let tail_dk := lastN dk n_tail
  match method with
  | .fit =>
    if tail_dk.length < 3 then listMean tail_dk
    else olsIntercept (tail_freq.map (fun f => 1 / (f * f))) tail_dk
  | .mean => listMean tail_dk

/-- The input violations listed by the spec for `validate_kramers_kronig`
(over ℚ the non-finite violation is unrepresentable: every value is
finite). -/
def inputViolation (frequency dk df : List ℚ) : Prop :=
  frequency.length ≠ dk.length ∨ frequency.length ≠ df.length ∨
  frequency.length < 2 ∨ (¬ ∀ d ∈ npDiff frequency, 0 < d) ∨
  (∃ x ∈ frequency, x ≤ 0)

instance (frequency dk df : List ℚ) : Decidable (inputViolation frequency dk df) := by
  unfold inputViolation; infer_instance

/-- The Hilbert path executing with fewer than 4 samples: on a uniform
grid this is the input grid itself; on a non-uniform grid it is the
resampled grid of `resampleNum` points. -/
def hilbertMin4Violation (p : Params) (frequency : List ℚ) : Prop :=
  actualMethodStr p.method (uniformOf frequency) = "hilbert" ∧
  (if uniformOf frequency then frequency.length < 4
   else resampleNum p.resample_points frequency.length < 4)

instance (p : Params) (frequency : List ℚ) :
    Decidable (hilbertMin4Violation p frequency) := by
  unfold hilbertMin4Violation; infer_instance

/-- Whether an optional anchor index falls outside the valid numpy index
range `[-n, n)` for an array of length `n`. -/
def anchorBad (a : Option ℤ) (n : ℕ) : Bool :=
  match a with
  | none => false
  | some i => decide (¬ (-(n : ℤ) ≤ i ∧ i < (n : ℤ)))

/-- An explicit SSKK anchor index outside the valid numpy range `[-n, n)`,
on the path that dereferences it. -/
def anchorViolation (p : Params) (frequency : List ℚ) : Prop :=
  actualMethodStr p.method (uniformOf frequency) = "trapz" ∧ p.use_sskk = true ∧
  anchorBad p.anchor_index frequency.length = true

/-- Forgetting the echoed `anchor_index` field of a result. -/
def noAnchorField : Except String KKResult → Except String KKResult :=
  Except.map (fun r => { r with anchor_index := none })

/-- Forgetting the `eps_inf_estimated` field of a result. -/
def noEpsField : Except String KKResult → Except String KKResult :=
  Except.map (fun r => { r with eps_inf_estimated := 0 })

end KK

-- --------------------
-- Helper lemmas
-- --------------------

namespace KK

unseal Rat.mul Rat.add Rat.sub Rat.inv

theorem getD_range_map {α : Type} (f : ℕ → α) (n i : ℕ) (d : α) :
    ((List.range n).map f).getD i d = if i < n then f i else d := by
  rcases Nat.lt_or_ge i n with h | h
  · simp [List.getD_eq_getElem?_getD, List.getElem?_map, List.getElem?_range, h]
  · have hlen : ((List.range n).map f).length ≤ i := by simpa using h
    simp [List.getD_eq_getElem?_getD, List.getElem?_eq_none hlen, Nat.not_lt.mpr h]

theorem kkTrapzSskk_getD_anchor (omega epsImag : List ℚ) (e d : ℚ) (i0 : ℕ)
    (h : i0 < omega.length) :
    (kkTrapzSskk omega epsImag e d (omega.getD i0 0)).getD i0 0 = d := by
  unfold kkTrapzSskk
  rw [getD_range_map]
  simp only [h, if_true]
  unfold kkTrapzSskkPoint
  simp

theorem resolveAnchor_lt {a : Option ℤ} {n : ℕ} {i : ℕ}
    (h : resolveAnchor a n = .ok i) (hn : 0 < n) : i < n := by
  cases a with
  | none =>
    simp only [resolveAnchor] at h
    cases h
    omega
  | some j =>
    simp only [resolveAnchor] at h
    split_ifs at h with h1 h2
    · cases h
      omega
    · cases h
      omega

theorem inputError_eq_none {frequency dk df : List ℚ}
    (h : inputError frequency dk df = none) :
    frequency.length = dk.length ∧ frequency.length = df.length ∧
    2 ≤ frequency.length ∧ (∀ d ∈ npDiff frequency, 0 < d) ∧
    (∀ x ∈ frequency, 0 < x) := by
  unfold inputError at h
  split_ifs at h with h1 h2 h3 h4
  push_neg at h1
  have h3b : ∀ d ∈ npDiff frequency, 0 < d := by
    intro d hd
    have := List.all_eq_true.mp h3 d hd
    simpa using this
  have h4b : ∀ x ∈ frequency, 0 < x := by
    intro x hx
    by_contra hc
    exact h4 (List.any_eq_true.mpr ⟨x, hx, by simpa using hc⟩)
  exact ⟨h1.1, h1.2, by omega, h3b, h4b⟩

theorem isOk_shape {ext : Ext} {p : Params} {frequency dk df : List ℚ}
    (h : (validateKK ext p frequency dk df).isOk = true) :
    inputError frequency dk df = none ∧
    ∃ vd, transformStep ext p frequency (omegaOf frequency) (epsImagOf dk df) dk
      (epsInfOf p frequency dk) (uniformOf frequency) = .ok vd := by
  unfold validateKK at h
  cases hIE : inputError frequency dk df with
  | some e =>
    rw [hIE] at h
    simp [Except.isOk, Except.toBool] at h
  | none =>
    rw [hIE] at h
    unfold computeKK at h
    cases hTS : transformStep ext p frequency (omegaOf frequency) (epsImagOf dk df) dk
        (epsInfOf p frequency dk) (uniformOf frequency) with
    | error e =>
      rw [hTS] at h
      simp [Except.map, Except.isOk, Except.toBool] at h
    | ok vd =>
      exact ⟨rfl, vd, rfl⟩

theorem runKK_eq {ext : Ext} {p : Params} {frequency dk df : List ℚ} {vd : List ℚ × String}
    (hIE : inputError frequency dk df = none)
    (hTS : transformStep ext p frequency (omegaOf frequency) (epsImagOf dk df) dk
      (epsInfOf p frequency dk) (uniformOf frequency) = .ok vd) :
    runKK ext p frequency dk df =
      buildResult p dk (epsInfOf p frequency dk) (detectPeaks ext df)
        (uniformOf frequency) vd := by
  unfold runKK validateKK computeKK
  rw [hIE, hTS]
  rfl

theorem transformStep_sskk (ext : Ext) (p : Params) (frequency omega epsImag dk : List ℚ)
    (epsInf : ℚ) (u : Bool) {i0 : ℕ}
    (hm : actualMethodStr p.method u = "trapz")
    (hsskk : p.use_sskk = true)
    (hanch : resolveAnchor p.anchor_index frequency.length = .ok i0) :
    transformStep ext p frequency omega epsImag dk epsInf u =
      .ok (kkTrapzSskk omega epsImag epsInf (dk.getD i0 0) (omega.getD i0 0),
        "trapz-sskk") := by
  unfold transformStep
  rw [hm, hsskk]
  simp [hanch, Except.map]

-- --------------------
-- Claim C1
-- --------------------

/-- C1: on the SSKK trapezoid path, when the anchor index resolves to a
grid index `i0`, the reconstructed value at the anchor sample equals the
measured real permittivity there: `dk_kk[i0] = dk[i0]` (exactly, in the
exact-rational embedding, because the prefactor `2(ωᵢ²−ω₀²)/π` vanishes
at `i = i0` and the guarded integral is finite). -/
theorem sskk_anchor_reproduces_dk (ext : Ext) (p : Params)
    (frequency dk df : List ℚ) (i0 : ℕ)
    (hIE : inputError frequency dk df = none)
    (hm : actualMethodStr p.method (uniformOf frequency) = "trapz")
    (hsskk : p.use_sskk = true)
    (hanch : resolveAnchor p.anchor_index frequency.length = .ok i0) :
    (runKK ext p frequency dk df).dk_kk.getD i0 0 = dk.getD i0 0 := by
  have hfacts := inputError_eq_none hIE
  have hn : 0 < frequency.length := by omega
  have hi0 : i0 < frequency.length := resolveAnchor_lt hanch hn
  have hTS := transformStep_sskk ext p frequency (omegaOf frequency) (epsImagOf dk df)
    dk (epsInfOf p frequency dk) (uniformOf frequency) hm hsskk hanch
  rw [runKK_eq hIE hTS]
  have hω : i0 < (omegaOf frequency).length := by
    simpa [omegaOf] using hi0
  exact kkTrapzSskk_getD_anchor (omegaOf frequency) (epsImagOf dk df)
    (epsInfOf p frequency dk) (dk.getD i0 0) i0 hω

/-- Witness for C1 at a concrete 3-point non-uniform-capable input with
an explicit on-grid anchor. -/
def pC1 : Params :=
  { method := .trapz, eps_inf := some 1, use_sskk := true, anchor_index := some 1 }

theorem sskk_anchor_reproduces_dk_witness :
    inputError [1, 2, 4] [2, 3, 5] [1/100, 2/100, 1/100] = none ∧
    (runKK extId pC1 [1, 2, 4] [2, 3, 5] [1/100, 2/100, 1/100]).dk_kk.getD 1 0
      = (3 : ℚ) :=
  ⟨by decide,
    (sskk_anchor_reproduces_dk extId pC1 [1, 2, 4] [2, 3, 5] [1/100, 2/100, 1/100] 1
      (by decide) (by decide) (by decide) (by rfl)).trans (by decide)⟩

theorem actualMethodStr_cases (m : Method) (u : Bool) :
    actualMethodStr m u = "hilbert" ∨ actualMethodStr m u = "trapz" := by
  cases m <;> cases u <;> simp [actualMethodStr]

theorem transformStep_detail {ext : Ext} {p : Params} {frequency omega epsImag dk : List ℚ}
    {epsInf : ℚ} {u : Bool} {vd : List ℚ × String}
    (hTS : transformStep ext p frequency omega epsImag dk epsInf u = .ok vd) :
    vd.2 = (if actualMethodStr p.method u = "hilbert"
            then (if u then "hilbert-uniform" else "hilbert-resample")
            else (if p.use_sskk then "trapz-sskk" else "trapz-pv")) := by
  unfold transformStep at hTS
  by_cases h1 : actualMethodStr p.method u = "hilbert"
  · rw [if_pos h1] at hTS
    by_cases h2 : u = true
    · rw [if_neg (by simp [h2])] at hTS
      cases hK : kkHilbert ext omega epsImag epsInf p.useWindow 2 with
      | error e => rw [hK] at hTS; simp [Except.map] at hTS
      | ok v =>
        rw [hK] at hTS
        simp only [Except.map] at hTS
        cases hTS
        subst h2
        simp [h1]
    · rw [if_pos (by simpa using h2)] at hTS
      cases hK : kkResampleHilbert ext frequency epsImag epsInf p.useWindow
          p.resample_points with
      | error e => rw [hK] at hTS; simp [Except.map] at hTS
      | ok v =>
        rw [hK] at hTS
        simp only [Except.map] at hTS
        cases hTS
        have h2f : u = false := by simpa using h2
        subst h2f
        simp [h1]
  · rw [if_neg h1] at hTS
    by_cases h3 : p.use_sskk = true
    · rw [if_pos h3] at hTS
      cases hA : resolveAnchor p.anchor_index frequency.length with
      | error e => rw [hA] at hTS; simp [Except.map] at hTS
      | ok i0 =>
        rw [hA] at hTS
        simp only [Except.map] at hTS
        cases hTS
        simp [h1, h3]
    · rw [if_neg h3] at hTS
      simp only [Except.ok.injEq] at hTS
      cases hTS
      simp [h1, h3]

theorem transformStep_anchor_irrel (ext : Ext) (p : Params)
    (frequency omega epsImag dk : List ℚ) (epsInf : ℚ) (u : Bool)
    (hc : ¬ (actualMethodStr p.method u = "trapz" ∧ p.use_sskk = true))
    (a b : Option ℤ) :
    transformStep ext { p with anchor_index := a } frequency omega epsImag dk epsInf u =
    transformStep ext { p with anchor_index := b } frequency omega epsImag dk epsInf u := by
  obtain ⟨m, em, ei, tf, mtp, uw, rp, ct, us, ai⟩ := p
  dsimp only at hc ⊢
  unfold transformStep
  dsimp only
  by_cases h1 : actualMethodStr m u = "hilbert"
  · rw [if_pos h1, if_pos h1]
  · have h2 : actualMethodStr m u = "trapz" :=
      (actualMethodStr_cases m u).resolve_left h1
    have h3 : us = false := by
      cases hus : us
      · rfl
      · exact absurd ⟨h2, hus⟩ hc
    subst h3
    rw [if_neg h1, if_neg h1]
    simp

-- --------------------
-- Claim C3
-- --------------------

/-- C3: method selection.  Under `auto`, `method_used` is `hilbert` on a
uniform grid and `trapz` otherwise; an explicit method is used as given;
the hilbert path reports `hilbert-uniform`/`hilbert-resample` according
to grid uniformity, the trapz path reports `trapz-sskk`/`trapz-pv`
according to `use_sskk`; and off the SSKK path the anchor index has no
effect on any computed output (only on the verbatim echo of the
`anchor_index` argument, which `noAnchorField` forgets). -/
theorem method_selection (ext : Ext) (p : Params) (frequency dk df : List ℚ)
    (a b : Option ℤ)
    (hok : (validateKK ext p frequency dk df).isOk = true) :
    (p.method = .auto →
      (runKK ext p frequency dk df).method_used =
        (if uniformOf frequency then "hilbert" else "trapz")) ∧
    (p.method = .hilbert → (runKK ext p frequency dk df).method_used = "hilbert") ∧
    (p.method = .trapz → (runKK ext p frequency dk df).method_used = "trapz") ∧
    ((runKK ext p frequency dk df).method_used = "hilbert" →
      (runKK ext p frequency dk df).method_detail =
        (if uniformOf frequency then "hilbert-uniform" else "hilbert-resample")) ∧
    ((runKK ext p frequency dk df).method_used = "trapz" →
      (runKK ext p frequency dk df).method_detail =
        (if p.use_sskk then "trapz-sskk" else "trapz-pv")) ∧
    (if actualMethodStr p.method (uniformOf frequency) = "trapz" ∧ p.use_sskk = true
     then True
     else noAnchorField (validateKK ext { p with anchor_index := a } frequency dk df) =
          noAnchorField (validateKK ext { p with anchor_index := b } frequency dk df)) := by
  obtain ⟨hIE, vd, hTS⟩ := isOk_shape hok
  have hrun := runKK_eq hIE hTS
  have hused : (runKK ext p frequency dk df).method_used =
      actualMethodStr p.method (uniformOf frequency) := by
    rw [hrun]
    rfl
  have hdetail : (runKK ext p frequency dk df).method_detail = vd.2 := by
    rw [hrun]
    rfl
  refine ⟨?_, ?_, ?_, ?_, ?_, ?_⟩
  · intro hm
    rw [hused, hm]
    rfl
  · intro hm
    rw [hused, hm]
    rfl
  · intro hm
    rw [hused, hm]
    rfl
  · intro hh
    rw [hused] at hh
    rw [hdetail, transformStep_detail hTS, if_pos hh]
  · intro hh
    rw [hused] at hh
    rw [hdetail, transformStep_detail hTS, if_neg (by simp [hh])]
  · by_cases hc : actualMethodStr p.method (uniformOf frequency) = "trapz" ∧
      p.use_sskk = true
    · rw [if_pos hc]
      trivial
    · rw [if_neg hc]
      unfold noAnchorField validateKK computeKK
      rw [hIE]
      have hEa : epsInfOf { p with anchor_index := a } frequency dk =
          epsInfOf p frequency dk := rfl
      have hEb : epsInfOf { p with anchor_index := b } frequency dk =
          epsInfOf p frequency dk := rfl
      rw [hEa, hEb]
      rw [transformStep_anchor_irrel ext p frequency (omegaOf frequency)
        (epsImagOf dk df) dk (epsInfOf p frequency dk) (uniformOf frequency) hc a b]
      cases hT2 : transformStep ext { p with anchor_index := b } frequency
          (omegaOf frequency) (epsImagOf dk df) dk (epsInfOf p frequency dk)
          (uniformOf frequency) with
      | error e => rfl
      | ok v => simp [Except.map, buildResult]

def pC3 : Params :=
  { method := .trapz, eps_inf := some 1, use_sskk := true, anchor_index := none }

theorem method_selection_witness :
    (validateKK extId pC3 [1, 2] [2, 3] [0, 0]).isOk = true ∧
    (runKK extId pC3 [1, 2] [2, 3] [0, 0]).method_used = "trapz" ∧
    (runKK extId pC3 [1, 2] [2, 3] [0, 0]).method_detail = "trapz-sskk" :=
  ⟨by decide,
    (method_selection extId pC3 [1, 2] [2, 3] [0, 0] none none (by decide)).2.2.1 rfl,
    ((method_selection extId pC3 [1, 2] [2, 3] [0, 0] none none (by decide)).2.2.2.2.1
      ((method_selection extId pC3 [1, 2] [2, 3] [0, 0] none none
        (by decide)).2.2.1 rfl)).trans (by decide)⟩

-- --------------------
-- Claim C2
-- --------------------

/-- C2: for every strictly increasing positive grid of length ≥ 2 and
matching ε″ array, the basic PV trapezoid transform returns at target
index `i` the value `eps_inf + (2/π)·Σ_j ½(f_j + f_{j+1})(ω_{j+1} − ω_j)`
with `f_k = ω_k ε″[k]/(ω_k² − ωᵢ²)` and each endpoint term replaced by
exactly 0 when its own denominator is exactly zero (the other endpoint of
the panel still contributes). -/
theorem trapz_pv_matches_claim_formula (omega epsImag : List ℚ) (eps_inf : ℚ) (i : ℕ)
    (hlen : omega.length = epsImag.length)
    (hn : 2 ≤ omega.length)
    (hmono : ∀ d ∈ npDiff omega, 0 < d)
    (hpos : ∀ x ∈ omega, 0 < x)
    (hi : i < omega.length) :
    (kkTrapz omega epsImag eps_inf).getD i 0 = kkTrapzClaimPoint omega epsImag eps_inf i := by
  unfold kkTrapz
  rw [getD_range_map]
  simp only [hi, if_true]
  unfold kkTrapzPoint kkTrapzClaimPoint pvEndpointTerm
  rfl

theorem trapz_pv_matches_claim_formula_witness :
    (([1, 2, 3] : List ℚ).length = ([5, 7, 11] : List ℚ).length) ∧
    2 ≤ ([1, 2, 3] : List ℚ).length ∧
    (kkTrapz [1, 2, 3] [5, 7, 11] 4).getD 1 0 = kkTrapzClaimPoint [1, 2, 3] [5, 7, 11] 4 1 :=
  ⟨by decide, by decide,
    trapz_pv_matches_claim_formula [1, 2, 3] [5, 7, 11] 4 1 (by decide) (by decide)
      (by decide) (by decide) (by decide)⟩

-- --------------------
-- Claim C4
-- --------------------

/-- C4: the reported aggregates are computed from the per-sample relative
error `|dk_kk − dk| / (|dk| + max(1e-12, 1e-6·median(|dk|)))`; the `mse`
field (square of the reported root-mean-square error) is the mean of the
squared residuals `dk_kk − dk`; and the causality verdict is `PASS`
exactly when the mean relative error is at most `causality_threshold`,
else `FAIL`. -/
theorem metrics_formula (ext : Ext) (p : Params) (frequency dk df : List ℚ)
    (hok : (validateKK ext p frequency dk df).isOk = true) :
    (runKK ext p frequency dk df).mean_relative_error =
      listMean (List.zipWith (fun a b => |a - b| /
          (|b| + max (1 / 10 ^ 12) ((1 / 10 ^ 6) * npMedian (dk.map (fun v => |v|)))))
        (runKK ext p frequency dk df).dk_kk dk) ∧
    (runKK ext p frequency dk df).median_relative_error =
      npMedian (List.zipWith (fun a b => |a - b| /
          (|b| + max (1 / 10 ^ 12) ((1 / 10 ^ 6) * npMedian (dk.map (fun v => |v|)))))
        (runKK ext p frequency dk df).dk_kk dk) ∧
    (runKK ext p frequency dk df).mse =
      listMean (List.zipWith (fun a b => (a - b) ^ 2)
        (runKK ext p frequency dk df).dk_kk dk) ∧
    (runKK ext p frequency dk df).causality_status =
      (if (runKK ext p frequency dk df).mean_relative_error ≤ p.causality_threshold
       then "PASS" else "FAIL") := by
  obtain ⟨hIE, vd, hTS⟩ := isOk_shape hok
  have hrun := runKK_eq hIE hTS
  refine ⟨?_, ?_, ?_, ?_⟩ <;> rw [hrun] <;> rfl

def pC4 : Params := { method := .trapz, eps_inf := some 1, use_sskk := false }

theorem metrics_formula_witness :
    (validateKK extId pC4 [1, 2] [2, 3] [0, 0]).isOk = true ∧
    (runKK extId pC4 [1, 2] [2, 3] [0, 0]).causality_status =
      (if (runKK extId pC4 [1, 2] [2, 3] [0, 0]).mean_relative_error ≤
          pC4.causality_threshold then "PASS" else "FAIL") :=
  ⟨by decide, (metrics_formula extId pC4 [1, 2] [2, 3] [0, 0] (by decide)).2.2.2⟩

-- --------------------
-- Claim C6: length lemmas for each path
-- --------------------

theorem kkHilbert_ok_length {ext : Ext} {omega epsImag : List ℚ} {e : ℚ} {w : Bool}
    {pf : ℕ} {v : List ℚ} (hy : epsImag.length = omega.length)
    (h : kkHilbert ext omega epsImag e w pf = .ok v) : v.length = omega.length := by
  unfold kkHilbert at h
  by_cases h4 : omega.length < 4
  · rw [if_pos h4] at h
    exact absurd h (by simp)
  · rw [if_neg h4] at h
    simp only [Except.ok.injEq] at h
    subst h
    set x := (if w = true then List.zipWith (· * ·) epsImag (ext.getWindow omega.length)
        else epsImag) with hxd
    have hx : x.length = omega.length := by
      rw [hxd]
      split
      · simp [List.length_zipWith, hy, ext.window_length]
      · exact hy
    split <;>
      (simp only [List.length_map, List.length_drop, List.length_take, List.length_append,
        List.length_reverse, List.length_replicate, ext.hilbert_length, List.length_cons,
        List.length_nil, hx]
       omega)

theorem except_map_ok {α β γ : Type} {g : β → γ} {X : Except α β} {v : γ}
    (h : X.map g = .ok v) : ∃ x, X = .ok x ∧ v = g x := by
  cases X with
  | error e => simp [Except.map] at h
  | ok x =>
    simp only [Except.map, Except.ok.injEq] at h
    exact ⟨x, rfl, h.symm⟩

theorem kkResampleHilbert_ok_length {ext : Ext} {frequency epsImag : List ℚ} {e : ℚ}
    {w : Bool} {rp : Option ℕ} {v : List ℚ}
    (h : kkResampleHilbert ext frequency epsImag e w rp = .ok v) :
    v.length = frequency.length := by
  unfold kkResampleHilbert at h
  dsimp only at h
  obtain ⟨dk_u, hX, hv⟩ := except_map_ok h
  subst hv
  simp [List.length_map]

theorem kkTrapz_length (omega epsImag : List ℚ) (e : ℚ) :
    (kkTrapz omega epsImag e).length = omega.length := by
  simp [kkTrapz]

theorem kkTrapzParallel_length (omega epsImag : List ℚ) (e : ℚ) :
    (kkTrapzParallel omega epsImag e).length = omega.length := by
  simp [kkTrapzParallel]

theorem kkTrapzSskk_length (omega epsImag : List ℚ) (e d w0 : ℚ) :
    (kkTrapzSskk omega epsImag e d w0).length = omega.length := by
  simp [kkTrapzSskk]

/-- C6: on every method path, the reconstructed `dk_kk` has exactly the
length of the input frequency array (its entries are produced
positionally: entry `i` is the reconstruction at input sample `i`). -/
theorem dk_kk_length (ext : Ext) (p : Params) (frequency dk df : List ℚ)
    (hok : (validateKK ext p frequency dk df).isOk = true) :
    (runKK ext p frequency dk df).dk_kk.length = frequency.length := by
  obtain ⟨hIE, vd, hTS⟩ := isOk_shape hok
  obtain ⟨hl1, hl2, hn2, _, _⟩ := inputError_eq_none hIE
  have hrun := runKK_eq hIE hTS
  have hdk : (runKK ext p frequency dk df).dk_kk = vd.1 := by
    rw [hrun]
    rfl
  rw [hdk]
  have hylen : (epsImagOf dk df).length = (omegaOf frequency).length := by
    simp only [epsImagOf, omegaOf, List.length_zipWith, List.length_map]
    omega
  have hωlen : (omegaOf frequency).length = frequency.length := by
    simp [omegaOf]
  unfold transformStep at hTS
  by_cases h1 : actualMethodStr p.method (uniformOf frequency) = "hilbert"
  · rw [if_pos h1] at hTS
    by_cases h2 : uniformOf frequency = true
    · rw [if_neg (by simp [h2])] at hTS
      cases hK : kkHilbert ext (omegaOf frequency) (epsImagOf dk df)
          (epsInfOf p frequency dk) p.useWindow 2 with
      | error msg =>
        rw [hK] at hTS
        simp [Except.map] at hTS
      | ok w =>
        rw [hK] at hTS
        simp only [Except.map, Except.ok.injEq] at hTS
        subst hTS
        rw [← hωlen]
        exact kkHilbert_ok_length hylen hK
    · rw [if_pos (by simpa using h2)] at hTS
      cases hK : kkResampleHilbert ext frequency (epsImagOf dk df)
          (epsInfOf p frequency dk) p.useWindow p.resample_points with
      | error msg =>
        rw [hK] at hTS
        simp [Except.map] at hTS
      | ok w =>
        rw [hK] at hTS
        simp only [Except.map, Except.ok.injEq] at hTS
        subst hTS
        exact kkResampleHilbert_ok_length hK
  · rw [if_neg h1] at hTS
    by_cases h3 : p.use_sskk = true
    · rw [if_pos h3] at hTS
      cases hA : resolveAnchor p.anchor_index frequency.length with
      | error msg =>
        rw [hA] at hTS
        simp [Except.map] at hTS
      | ok i0 =>
        rw [hA] at hTS
        simp only [Except.map, Except.ok.injEq] at hTS
        subst hTS
        rw [← hωlen]
        exact kkTrapzSskk_length _ _ _ _ _
    · rw [if_neg h3] at hTS
      simp only [Except.ok.injEq] at hTS
      subst hTS
      rw [← hωlen]
      cases ext.numba
      · simpa using kkTrapz_length (omegaOf frequency) (epsImagOf dk df)
          (epsInfOf p frequency dk)
      · simpa using kkTrapzParallel_length (omegaOf frequency) (epsImagOf dk df)
          (epsInfOf p frequency dk)

theorem dk_kk_length_witness :
    (validateKK extId pC1 [1, 2, 4] [2, 3, 5] [1/100, 2/100, 1/100]).isOk = true ∧
    (runKK extId pC1 [1, 2, 4] [2, 3, 5] [1/100, 2/100, 1/100]).dk_kk.length =
      ([1, 2, 4] : List ℚ).length :=
  ⟨by decide,
    dk_kk_length extId pC1 [1, 2, 4] [2, 3, 5] [1/100, 2/100, 1/100] (by decide)⟩

-- --------------------
-- Claim C8
-- --------------------

/-- C8: the accelerated (parallel) trapezoid PV kernel and the
non-parallel reference implementation compute the same function (in the
embedding exactly, since the two source loop bodies are textually
identical), and no observable result of `validate_kramers_kronig`
depends on which backend executes. -/
theorem backend_equivalence :
    (∀ (omega epsImag : List ℚ) (eps_inf : ℚ),
      kkTrapzParallel omega epsImag eps_inf = kkTrapz omega epsImag eps_inf) ∧
    (∀ (ext : Ext) (p : Params) (frequency dk df : List ℚ),
      validateKK { ext with numba := true } p frequency dk df =
      validateKK { ext with numba := false } p frequency dk df) := by
  constructor
  · intro omega epsImag eps_inf
    rfl
  · intro ext p frequency dk df
    rfl

-- --------------------
-- Claim C9
-- --------------------

theorem transformStep_sskk_shape {ext : Ext} {p : Params}
    {frequency omega epsImag dk : List ℚ} {epsInf : ℚ} {u : Bool}
    (hm : actualMethodStr p.method u = "trapz")
    (hsskk : p.use_sskk = true) :
    transformStep ext p frequency omega epsImag dk epsInf u =
      (resolveAnchor p.anchor_index frequency.length).map (fun idx0 =>
        (kkTrapzSskk omega epsImag epsInf (dk.getD idx0 0) (omega.getD idx0 0),
          "trapz-sskk")) := by
  unfold transformStep
  rw [if_neg (by rw [hm]; decide), if_pos hsskk]

/-- C9: on the SSKK trapezoid path the returned `dk_kk` (and every other
computed output) does not depend on the ε∞ value: two runs identical
except for the `eps_inf` argument agree on everything except the
reported `eps_inf_estimated` field, which `noEpsField` forgets
(`_kk_trapz_sskk` accepts `eps_inf` but never uses it). -/
theorem sskk_eps_inf_independence (ext : Ext) (p : Params)
    (frequency dk df : List ℚ) (a b : ℚ)
    (hm : actualMethodStr p.method (uniformOf frequency) = "trapz")
    (hsskk : p.use_sskk = true) :
    noEpsField (validateKK ext { p with eps_inf := some a } frequency dk df) =
    noEpsField (validateKK ext { p with eps_inf := some b } frequency dk df) := by
  unfold noEpsField validateKK computeKK
  cases hIE : inputError frequency dk df with
  | some e => rfl
  | none =>
    have hEa : epsInfOf { p with eps_inf := some a } frequency dk = a := rfl
    have hEb : epsInfOf { p with eps_inf := some b } frequency dk = b := rfl
    rw [hEa, hEb]
    rw [transformStep_sskk_shape (p := { p with eps_inf := some a }) hm hsskk,
      transformStep_sskk_shape (p := { p with eps_inf := some b }) hm hsskk]
    cases hA : resolveAnchor ({ p with eps_inf := some a } : Params).anchor_index
        frequency.length with
    | error e => rfl
    | ok i0 => rfl

def pC9base : Params := { method := .trapz, use_sskk := true }

theorem sskk_eps_inf_independence_witness :
    actualMethodStr pC9base.method (uniformOf [1, 2]) = "trapz" ∧
    noEpsField (validateKK extId { pC9base with eps_inf := some 3 } [1, 2] [2, 3]
      [1/100, 2/100]) =
    noEpsField (validateKK extId { pC9base with eps_inf := some 7 } [1, 2] [2, 3]
      [1/100, 2/100]) :=
  ⟨by decide,
    sskk_eps_inf_independence extId pC9base [1, 2] [2, 3] [1/100, 2/100] 3 7
      (by decide) (by decide)⟩

-- --------------------
-- Claim C5
-- --------------------

theorem except_isOk_map {α β γ : Type} (g : β → γ) (X : Except α β) :
    (X.map g).isOk = X.isOk := by
  cases X <;> rfl

theorem linspace_length (a b : ℚ) (num : ℕ) : (linspace a b num).length = num := by
  simp only [linspace, List.length_map, List.length_range]

theorem kkHilbert_isOk_false_iff {ext : Ext} {omega epsImag : List ℚ} {e : ℚ}
    {w : Bool} {pf : ℕ} :
    (kkHilbert ext omega epsImag e w pf).isOk = false ↔ omega.length < 4 := by
  unfold kkHilbert
  by_cases h : omega.length < 4
  · rw [if_pos h]
    exact iff_of_true rfl h
  · rw [if_neg h]
    exact iff_of_false (by simp [Except.isOk, Except.toBool]) h

theorem kkResampleHilbert_isOk_false_iff {ext : Ext} {frequency epsImag : List ℚ}
    {e : ℚ} {w : Bool} {rp : Option ℕ} :
    (kkResampleHilbert ext frequency epsImag e w rp).isOk = false ↔
      resampleNum rp frequency.length < 4 := by
  unfold kkResampleHilbert
  dsimp only
  rw [except_isOk_map, kkHilbert_isOk_false_iff, linspace_length]

theorem resolveAnchor_isOk_false_iff {a : Option ℤ} {n : ℕ} :
    (resolveAnchor a n).isOk = false ↔ anchorBad a n = true := by
  cases a with
  | none => simp [resolveAnchor, anchorBad, Except.isOk, Except.toBool]
  | some i =>
    simp only [resolveAnchor, anchorBad]
    split_ifs with h1 h2
    · exact iff_of_false (by simp [Except.isOk, Except.toBool])
        (by simp only [decide_eq_true_eq]; push_neg; omega)
    · exact iff_of_false (by simp [Except.isOk, Except.toBool])
        (by simp only [decide_eq_true_eq]; push_neg; omega)
    · exact iff_of_true rfl (by simp only [decide_eq_true_eq]; push_neg at h1 h2; omega)

theorem transformStep_isOk_false_iff {ext : Ext} {p : Params}
    {frequency omega epsImag dk : List ℚ} {epsInf : ℚ} {u : Bool} :
    (transformStep ext p frequency omega epsImag dk epsInf u).isOk = false ↔
      ((actualMethodStr p.method u = "hilbert" ∧
        (if u then omega.length < 4
         else resampleNum p.resample_points frequency.length < 4)) ∨
       (actualMethodStr p.method u = "trapz" ∧ p.use_sskk = true ∧
        anchorBad p.anchor_index frequency.length = true)) := by
  unfold transformStep
  by_cases h1 : actualMethodStr p.method u = "hilbert"
  · rw [if_pos h1]
    by_cases h2 : u = true
    · rw [if_neg (by simp [h2])]
      rw [except_isOk_map, kkHilbert_isOk_false_iff]
      subst h2
      simp [h1]
    · have h2f : u = false := by simpa using h2
      subst h2f
      rw [if_pos (by simp)]
      rw [except_isOk_map, kkResampleHilbert_isOk_false_iff]
      simp [h1]
  · have hm : actualMethodStr p.method u = "trapz" :=
      (actualMethodStr_cases p.method u).resolve_left h1
    rw [if_neg h1]
    by_cases h3 : p.use_sskk = true
    · rw [if_pos h3]
      rw [except_isOk_map, resolveAnchor_isOk_false_iff]
      simp [h1, hm, h3]
    · rw [if_neg h3]
      exact iff_of_false (by simp [Except.isOk, Except.toBool])
        (by simp [h1, h3])

theorem inputError_none_iff {frequency dk df : List ℚ} :
    inputError frequency dk df = none ↔ ¬ inputViolation frequency dk df := by
  constructor
  · intro h
    obtain ⟨h1, h2, h3, h4, h5⟩ := inputError_eq_none h
    rintro (hv | hv | hv | hv | hv)
    · exact hv h1
    · exact hv h2
    · omega
    · exact hv h4
    · obtain ⟨x, hx, hx0⟩ := hv
      exact absurd (h5 x hx) (by linarith)
  · intro hnv
    unfold inputError
    have h1 : ¬ (frequency.length ≠ dk.length ∨ frequency.length ≠ df.length) := by
      rintro (h | h)
      · exact hnv (Or.inl h)
      · exact hnv (Or.inr (Or.inl h))
    rw [if_neg h1]
    have h2 : ¬ frequency.length < 2 := fun h => hnv (Or.inr (Or.inr (Or.inl h)))
    rw [if_neg h2]
    have h3 : (npDiff frequency).all (fun d => decide (0 < d)) = true := by
      by_contra hno
      refine hnv (Or.inr (Or.inr (Or.inr (Or.inl ?_))))
      intro hall
      exact hno (List.all_eq_true.mpr (fun d hd => by simpa using hall d hd))
    rw [if_neg (not_not_intro h3)]
    have h4 : ¬ (frequency.any (fun f => decide (f ≤ 0)) = true) := by
      intro hany
      obtain ⟨x, hx, hx0⟩ := List.any_eq_true.mp hany
      exact hnv (Or.inr (Or.inr (Or.inr (Or.inr ⟨x, hx, by simpa using hx0⟩))))
    rw [if_neg h4]

/-- C5 counterexample: a 3-point uniform grid with no input violation
still raises, because the auto-selected Hilbert path requires at least 4
samples.  So `validate_kramers_kronig` does not raise *exactly* on the
claimed input violations. -/
def pC5 : Params := { method := .auto, eps_inf := some 1 }

theorem validate_raises_without_input_violation :
    ¬ inputViolation [1, 2, 3] [1, 1, 1] [0, 0, 0] ∧
    (validateKK extId pC5 [1, 2, 3] [1, 1, 1] [0, 0, 0]).isOk = false :=
  ⟨by decide, by decide⟩

/-- C5 (amended): `validate_kramers_kronig` raises synchronously,
returning nothing else, exactly when an input violation holds (unequal lengths,
fewer than 2 samples, non-increasing or non-positive frequencies; the
non-finite case has no counterpart over exact rationals), or the Hilbert
path executes with fewer than 4 samples (on the input grid when uniform,
on the resampled grid otherwise), or the SSKK path receives an explicit
anchor index outside the valid numpy range.  In particular
degenerate-but-valid inputs such as an all-zero loss tangent or a flat
spectrum return a result (possibly with a FAIL verdict) whenever no such
condition holds. -/
theorem validate_error_iff (ext : Ext) (p : Params) (frequency dk df : List ℚ) :
    (validateKK ext p frequency dk df).isOk = false ↔
      (inputViolation frequency dk df ∨ hilbertMin4Violation p frequency ∨
        anchorViolation p frequency) := by
  have homega : (omegaOf frequency).length = frequency.length := by simp [omegaOf]
  constructor
  · intro h
    by_cases hv : inputViolation frequency dk df
    · exact Or.inl hv
    · have hIE : inputError frequency dk df = none := inputError_none_iff.mpr hv
      unfold validateKK at h
      rw [hIE] at h
      unfold computeKK at h
      rw [except_isOk_map] at h
      rcases transformStep_isOk_false_iff.mp h with ⟨hh, hc⟩ | ⟨hm, hs, hb⟩
      · refine Or.inr (Or.inl ⟨hh, ?_⟩)
        cases hu : uniformOf frequency
        · rw [hu] at hc
          simpa [hu] using hc
        · rw [hu] at hc
          simpa [hu, homega] using hc
      · exact Or.inr (Or.inr ⟨hm, hs, hb⟩)
  · intro h
    cases hV : (validateKK ext p frequency dk df).isOk with
    | false => rfl
    | true =>
      exfalso
      obtain ⟨hIE, vd, hTS⟩ := isOk_shape hV
      have hTOk : (transformStep ext p frequency (omegaOf frequency) (epsImagOf dk df)
          dk (epsInfOf p frequency dk) (uniformOf frequency)).isOk = true := by
        rw [hTS]
        rfl
      have hnotfalse : ¬ ((transformStep ext p frequency (omegaOf frequency)
          (epsImagOf dk df) dk (epsInfOf p frequency dk)
          (uniformOf frequency)).isOk = false) := by
        rw [hTOk]
        simp
      rcases h with hv | ⟨hh, hc⟩ | ⟨hm, hs, hb⟩
      · exact absurd hIE (by rw [inputError_none_iff]; simpa using hv)
      · refine hnotfalse (transformStep_isOk_false_iff.mpr (Or.inl ⟨hh, ?_⟩))
        cases hu : uniformOf frequency
        · rw [hu] at hc
          simpa [hu] using hc
        · rw [hu] at hc
          simpa [hu, homega] using hc
      · exact hnotfalse (transformStep_isOk_false_iff.mpr (Or.inr ⟨hm, hs, hb⟩))

-- --------------------
-- Claim C7
-- --------------------

/-- The 36 increasing frequencies 1, 2, ..., 36. -/
def fC7 : List ℚ := (List.range 36).map (fun k : ℕ => (k : ℚ) + 1)

/-- A `dk` array whose value at index 32 is 100 and 0 elsewhere, so the
last-3 tail and the last-4 tail have different means. -/
def dkC7 : List ℚ := (List.range 36).map (fun k : ℕ => if k = 32 then 100 else 0)

/-- C7 counterexample: with `N = 36`, `tail_fraction = 1/10` and
`min_tail_points = 3`, the claimed tail size rounds `3.6` up to 4 while
the code truncates (`int(...)`) to 3; the two resulting tail means
differ (0 versus 25), so the claim is false as stated. -/
theorem eps_inf_tail_rounding_mismatch :
    estimateEpsInf fC7 dkC7 .mean (1 / 10) 3 = 0 ∧
    estimateEpsInfClaim fC7 dkC7 .mean (1 / 10) 3 = 25 ∧
    estimateEpsInf fC7 dkC7 .mean (1 / 10) 3 ≠
      estimateEpsInfClaim fC7 dkC7 .mean (1 / 10) 3 :=
  ⟨by decide, by decide, by decide⟩

theorem tailSize_le (N : ℕ) (tail_fraction : ℚ) (min_tail_points : ℕ) :
    tailSize N tail_fraction min_tail_points ≤ N := by
  unfold tailSize
  omega

/-- C7 (amended): the ε∞ estimator uses a tail of size
`clamp(max(min_tail_points, trunc(tail_fraction·N)), upper bound N)` —
`int(...)` truncates toward zero rather than rounding — whenever that
size is at least 1 (a computed size of 0 selects the whole array through
the numpy slice `[-0:]`); with method `mean` it returns the arithmetic mean
of the tail `dk` values; with method `fit` and at least 3 tail points it
returns the intercept of an ordinary least-squares regression of tail
`dk` against `1/f²`; with method `fit` and fewer than 3 tail points it
silently falls back to the tail mean. -/
theorem eps_inf_estimator_amended (frequency dk : List ℚ) (tail_fraction : ℚ)
    (min_tail_points : ℕ)
    (hlen : frequency.length = dk.length)
    (hpos : 1 ≤ tailSize frequency.length tail_fraction min_tail_points) :
    (lastN dk (tailSize frequency.length tail_fraction min_tail_points)).length =
      tailSize frequency.length tail_fraction min_tail_points ∧
    estimateEpsInf frequency dk .mean tail_fraction min_tail_points =
      listMean (lastN dk (tailSize frequency.length tail_fraction min_tail_points)) ∧
    estimateEpsInf frequency dk .fit tail_fraction min_tail_points =
      (if (lastN dk (tailSize frequency.length tail_fraction min_tail_points)).length < 3
       then listMean (lastN dk (tailSize frequency.length tail_fraction min_tail_points))
       else olsIntercept
         ((lastN frequency (tailSize frequency.length tail_fraction min_tail_points)).map
           (fun f => 1 / (f * f)))
         (lastN dk (tailSize frequency.length tail_fraction min_tail_points))) := by
  refine ⟨?_, rfl, rfl⟩
  have hle : tailSize frequency.length tail_fraction min_tail_points ≤ dk.length := by
    rw [← hlen]
    exact tailSize_le _ _ _
  unfold lastN
  rw [if_neg (by omega)]
  rw [List.length_drop]
  omega

theorem eps_inf_estimator_amended_witness :
    (([1, 2, 3, 4] : List ℚ).length = ([1, 2, 3, 4] : List ℚ).length) ∧
    1 ≤ tailSize ([1, 2, 3, 4] : List ℚ).length (1 / 10) 3 ∧
    (lastN ([1, 2, 3, 4] : List ℚ) (tailSize ([1, 2, 3, 4] : List ℚ).length (1 / 10) 3)).length =
      tailSize ([1, 2, 3, 4] : List ℚ).length (1 / 10) 3 :=
  ⟨rfl, by decide,
    (eps_inf_estimator_amended [1, 2, 3, 4] [1, 2, 3, 4] (1 / 10) 3 rfl (by decide)).1⟩

-- --------------------
-- Claim C10
-- --------------------

/-- C10 counterexample: on a single-sample frequency array the
as-executed uniformity check does not return a boolean — `diffs[0]`
raises `IndexError` on the empty difference array (modelled as `none`).
So `is_uniform` is not total on every input frequency array. -/
theorem is_uniform_raises_on_short_input :
    isGridUniformRun [(1 : ℚ)] (1 / 100000) (1 / 100000000) = none := by
  decide

/-- C10 (amended): on every frequency array of length at least 2 (the
only arrays the engine passes to it), the grid-uniformity check totally
evaluates to a boolean, true exactly when every consecutive difference
is within `atol + rtol·|d₀|` of the first difference `d₀`. -/
theorem is_uniform_total_on_long_input (l : List ℚ) (rtol atol : ℚ)
    (h : 2 ≤ l.length) :
    isGridUniformRun l rtol atol = some (isGridUniform l rtol atol) ∧
    (isGridUniform l rtol atol = true ↔
      ∀ d ∈ npDiff l, |d - (npDiff l).headD 0| ≤ atol + rtol * |(npDiff l).headD 0|) := by
  have hlen : (npDiff l).length = l.length - 1 := by
    simp only [npDiff, List.length_zipWith, List.length_tail]
    omega
  cases hd : npDiff l with
  | nil =>
    rw [hd] at hlen
    simp at hlen
    omega
  | cons d ds =>
    constructor
    · unfold isGridUniformRun isGridUniform
      rw [hd]
      rfl
    · unfold isGridUniform npAllclose
      rw [hd]
      simp [List.all_eq_true]

theorem is_uniform_total_on_long_input_witness :
    2 ≤ ([1, 2, 3] : List ℚ).length ∧
    isGridUniformRun [1, 2, 3] (1 / 100000) (1 / 100000000) =
      some (isGridUniform [1, 2, 3] (1 / 100000) (1 / 100000000)) :=
  ⟨by decide, (is_uniform_total_on_long_input [1, 2, 3] (1 / 100000) (1 / 100000000)
    (by decide)).1⟩

end KK
